import Mathlib

/-
Verification development for the tufte_style_plots repository.

The computational core of the repository lives in
tufte_style_plots/utils.py (normalize_to_percentage, range_frame,
validate_data) and tufte_style_plots/core.py (histogram, line, scatter).
This file gives a shallow embedding of those functions and of the
behaviour of the external collaborators they delegate to (numpy's
np.histogram / np.min / np.max / np.isnan, and the axes-state effects of
matplotlib's set_xlim / set_ylim / spine set_bounds), and proves the
specification claims about them.

Numbers are modelled exactly: a numpy float64 entry is either a rational
number or one of the non-finite markers nan, +inf, -inf.  All the
arithmetic the claims exercise is decision-free of rounding, so exact
rationals are a faithful model of the float computations involved.
-/

namespace Tufte

/-- Entry of a numpy float array: a finite value (modelled exactly as a
rational) or one of the IEEE non-finite markers. -/
inductive Val where
  | num (q : ℚ)
  | nan
  | inf
  | ninf
deriving DecidableEq

/-- np.isnan on a single float entry. -/
def isNanV : Val → Bool
  | .nan => true
  | _ => false

/-- Pairwise minimum with numpy semantics (np.minimum): nan propagates,
-inf is absorbing, +inf is neutral. -/
def vmin2 : Val → Val → Val
  | .nan, _ => .nan
  | _, .nan => .nan
  | .ninf, _ => .ninf
  | _, .ninf => .ninf
  | .inf, b => b
  | a, .inf => a
  | .num p, .num q => .num (min p q)

/-- Pairwise maximum with numpy semantics (np.maximum). -/
def vmax2 : Val → Val → Val
  | .nan, _ => .nan
  | _, .nan => .nan
  | .inf, _ => .inf
  | _, .inf => .inf
  | .ninf, b => b
  | a, .ninf => a
  | .num p, .num q => .num (max p q)

/-- IEEE subtraction on float entries (exact in the finite case). -/
def vsub : Val → Val → Val
  | .nan, _ => .nan
  | _, .nan => .nan
  | .inf, .inf => .nan
  | .inf, _ => .inf
  | .ninf, .ninf => .nan
  | .ninf, _ => .ninf
  | _, .inf => .ninf
  | _, .ninf => .inf
  | .num p, .num q => .num (p - q)

/-- IEEE addition on float entries (exact in the finite case). -/
def vadd : Val → Val → Val
  | .nan, _ => .nan
  | _, .nan => .nan
  | .inf, .ninf => .nan
  | .ninf, .inf => .nan
  | .inf, _ => .inf
  | _, .inf => .inf
  | .ninf, _ => .ninf
  | _, .ninf => .ninf
  | .num p, .num q => .num (p + q)

/-- Multiplication of a float entry by a finite scalar (the padding
fraction); 0 * inf is nan, as in IEEE arithmetic. -/
def vscale (c : ℚ) : Val → Val
  | .nan => .nan
  | .num q => .num (c * q)
  | .inf => if 0 < c then .inf else if c < 0 then .ninf else .nan
  | .ninf => if 0 < c then .ninf else if c < 0 then .inf else .nan

/-- The comparison `v > 0` on a float entry; any comparison with nan is
false. -/
def vgt0 : Val → Bool
  | .num q => decide (0 < q)
  | .inf => true
  | _ => false

/-- np.min of a one-dimensional array (reduction by np.minimum, so a nan
anywhere gives nan).  np.min of an empty array raises; the callers in
this repository only reach it on arrays validated non-empty upstream, so
the empty case is given the harmless value nan here. -/
def npMinl : List Val → Val
  | [] => .nan
  | h :: t => t.foldl vmin2 h

/-- np.max of a one-dimensional array (reduction by np.maximum). -/
def npMaxl : List Val → Val
  | [] => .nan
  | h :: t => t.foldl vmax2 h

/-- Minimum of a list of rationals (the pure-number special case of
np.min, used to state theorems about fully finite samples). -/
def qmin : List ℚ → ℚ
  | [] => 0
  | h :: t => t.foldl min h

/-- Maximum of a list of rationals (the pure-number special case of
np.max). -/
def qmax : List ℚ → ℚ
  | [] => 0
  | h :: t => t.foldl max h

/-- The bins argument of np.histogram as used by this repository: an
integer bin count, the automatic bin-count strategy, or an explicit
monotone sequence of bin edges. -/
inductive Bins where
  | count (n : ℕ)
  | auto
  | edges (es : List ℚ)
deriving DecidableEq

/-- Model of numpy's histogram range computation (_get_outer_edges with
no explicit range): an empty array gets the default range (0, 1);
otherwise the range is (min, max), which must be finite — a nan or
infinity anywhere in the data makes np.histogram raise ValueError — and
a degenerate range (min = max) is widened by 0.5 on each side. -/
def outerEdges (data : List Val) : Except String (ℚ × ℚ) :=
  match data with
  | [] => .ok (0, 1)
  | _ =>
    match npMinl data, npMaxl data with
    | .num f, .num l =>
      if f = l then .ok (f - 1/2, l + 1/2) else .ok (f, l)
    | _, _ => .error "autodetected range of data is not finite"

/-- np.linspace over the closed interval, giving the n+1 edges of n
equal-width bins. -/
def linspace (a b : ℚ) (n : ℕ) : List ℚ :=
  (List.range (n + 1)).map (fun i : ℕ => a + (b - a) * (i : ℚ) / (n : ℚ))

/-- Bin index assigned by numpy's uniform-bin fast path to an in-range
value: truncate (x - first) * n / (last - first), sending the right
endpoint (index n) into the last bin. -/
def binIndex (first last : ℚ) (n : ℕ) (x : ℚ) : ℕ :=
  min (Int.toNat ⌊(x - first) * n / (last - first)⌋) (n - 1)

/-- The keep-mask of numpy's uniform-bin fast path: only finite values
inside the closed range [first, last] are counted. -/
def inRangeB (first last : ℚ) : Val → Bool
  | .num x => decide (first ≤ x) && decide (x ≤ last)
  | _ => false

/-- Bin index as a total function on float entries; values outside the
keep-mask never contribute, so their index is irrelevant. -/
def binIdxV (first last : ℚ) (n : ℕ) : Val → ℕ
  | .num x => binIndex first last n x
  | _ => 0

/-- Counts of n equal-width bins over [first, last], as computed by
numpy's uniform-bin fast path (mask to the closed range, compute the
scaled-truncation index, clip the right endpoint into the last bin). -/
def uniformCounts (data : List Val) (first last : ℚ) (n : ℕ) : List ℕ :=
  (List.range n).map fun i =>
    data.countP fun v => inRangeB first last v && (binIdxV first last n v == i)

/-- numpy's monotonicity requirement on an explicit edge array. -/
def edgesMonotone (es : List ℚ) : Bool :=
  (es.zip es.tail).all fun p => decide (p.1 ≤ p.2)

/-- Membership of a value in bin i of an explicit edge sequence:
half-open [e_i, e_i+1) for every bin except the last, which is closed
(numpy's searchsorted-inclusive semantics). -/
def edgeBinPred (es : List ℚ) (i : ℕ) : Val → Bool
  | .num x =>
    if i + 2 = es.length then
      decide (es.getD i 0 ≤ x) && decide (x ≤ es.getD (i + 1) 0)
    else
      decide (es.getD i 0 ≤ x) && decide (x < es.getD (i + 1) 0)
  | _ => false

/-- Counts over an explicit edge sequence of length m: m - 1 bins (and
in particular an empty count list when m ≤ 1, which is what numpy's
np.diff of the cumulative search gives). -/
def edgeCounts (data : List Val) (es : List ℚ) : List ℕ :=
  (List.range (es.length - 1)).map fun i => data.countP (edgeBinPred es i)

/-- Model of np.histogram(data, bins).  The automatic strategy computes
the data range first (raising on non-finite data exactly like the
integer-count case) and then asks a bin-count heuristic for the number
of equal-width bins; the heuristic itself is delegated to numpy and is a
parameter nbinsOf here, clipped to at least one bin as numpy does. -/
def npHistogram (nbinsOf : List Val → ℕ) (data : List Val) (bins : Bins) :
    Except String (List ℕ × List ℚ) :=
  match bins with
  | .edges es =>
    if edgesMonotone es then .ok (edgeCounts data es, es)
    else .error "bins must increase monotonically, when an array"
  | .count n =>
    if n = 0 then .error "bins must be positive, when an integer"
    else
      match outerEdges data with
      | .error e => .error e
      | .ok (f, l) => .ok (uniformCounts data f l n, linspace f l n)
  | .auto =>
    match outerEdges data with
    | .error e => .error e
    | .ok (f, l) =>
      let n := max (nbinsOf data) 1
      .ok (uniformCounts data f l n, linspace f l n)

/-- normalize_to_percentage from tufte_style_plots/utils.py: bin the
data with np.histogram, then rescale the counts to percentages when the
total count is positive, and otherwise return the counts cast to float
(all zeros). -/
def normalize_to_percentage (nbinsOf : List Val → ℕ) (data : List Val)
    (bins : Bins) : Except String (List ℚ × List ℚ) :=
  match npHistogram nbinsOf data bins with
  | .error e => .error e
  | .ok (counts, bin_edges) =>
    let total := counts.sum
    if 0 < total then
      .ok (counts.map (fun c : ℕ => (c : ℚ) / total * 100), bin_edges)
    else
      .ok (counts.map (fun c : ℕ => (c : ℚ)), bin_edges)

/-- The axes-state fields this repository's code manipulates through the
rendering collaborator: the display limits of the two axes (set_xlim /
set_ylim) and the drawn bounds of the bottom and left spines
(spines[...].set_bounds); none means the spine follows the full axis, the
matplotlib default.  Rendering-only properties (bars, lines, spine
visibility, ticks, fonts) are delegated to the external library and
carry no claim, so they are not part of the state. -/
structure AxesState where
  xlim : Val × Val
  ylim : Val × Val
  bottomBounds : Option (Val × Val)
  leftBounds : Option (Val × Val)
deriving DecidableEq

/-- ax.set_ylim(bottom=b): only the lower display limit changes. -/
def set_ylim_bottom (ax : AxesState) (b : Val) : AxesState :=
  { ax with ylim := (b, ax.ylim.2) }

/-- A freshly created matplotlib axes: display limits (0, 1) on both
axes, spines following the full axis. -/
def defaultAxes : AxesState :=
  { xlim := (.num 0, .num 1), ylim := (.num 0, .num 1),
    bottomBounds := none, leftBounds := none }

/-- range_frame from tufte_style_plots/utils.py.  For each supplied axis
it computes the data minimum and maximum; when the range is positive it
sets the display limits to the range padded by the given fraction on
each side and the spine bounds to the exact unpadded extent, and when
the range is not positive it sets the display limits to a fixed pad of
0.5 on each side and the spine bounds to the (collapsed) extent.  An
omitted axis is left completely untouched. -/
def range_frame (ax : AxesState) (x_data y_data : Option (List Val))
    (x_padding y_padding : ℚ) : AxesState :=
  let ax1 : AxesState :=
    match x_data with
    | none => ax
    | some xd =>
      let x_min := npMinl xd
      let x_max := npMaxl xd
      let x_range := vsub x_max x_min
      if vgt0 x_range then
        { ax with
          xlim := (vsub x_min (vscale x_padding x_range),
                   vadd x_max (vscale x_padding x_range)),
          bottomBounds := some (x_min, x_max) }
      else
        { ax with
          xlim := (vsub x_min (.num (1/2)), vadd x_max (.num (1/2))),
          bottomBounds := some (x_min, x_max) }
  match y_data with
  | none => ax1
  | some yd =>
    let y_min := npMinl yd
    let y_max := npMaxl yd
    let y_range := vsub y_max y_min
    if vgt0 y_range then
      { ax1 with
        ylim := (vsub y_min (vscale y_padding y_range),
                 vadd y_max (vscale y_padding y_range)),
        leftBounds := some (y_min, y_max) }
    else
      { ax1 with
        ylim := (vsub y_min (.num (1/2)), vadd y_max (.num (1/2))),
        leftBounds := some (y_min, y_max) }

/-- Array-like inputs accepted by the public entry points: a sequence of
numbers (becoming a numeric numpy array), a sequence of strings
(becoming a non-numeric numpy array), or input that numpy's array
conversion itself rejects, such as a ragged nested sequence, carrying
the conversion failure message. -/
inductive PyObj where
  | numList (l : List Val)
  | strList (s : List String)
  | ragged (msg : String)
deriving DecidableEq

/-- A converted numpy array: numeric (float) or non-numeric (string
dtype). -/
inductive NpArray where
  | floats (l : List Val)
  | strs (s : List String)
deriving DecidableEq

/-- The two Python exception kinds raised by the reviewed code. -/
inductive PyError where
  | typeError (msg : String)
  | valueError (msg : String)
deriving DecidableEq

/-- to_array from tufte_style_plots/utils.py: conversion to a numpy
array via np.asarray, which fails exactly on the inputs numpy itself
rejects. -/
def to_array : PyObj → Except String NpArray
  | .numList l => .ok (.floats l)
  | .strList s => .ok (.strs s)
  | .ragged msg => .error msg

/-- Number of elements of a converted array (len / .size on a
one-dimensional array agree). -/
def npSize : NpArray → ℕ
  | .floats l => l.length
  | .strs s => s.length

/-- np.all(np.isnan(arr)): defined on numeric arrays; on a string-typed
array np.isnan raises TypeError (ufunc not supported for the input
types). -/
def np_isnan_all : NpArray → Except PyError Bool
  | .floats l => .ok (l.all isNanV)
  | .strs _ => .error (.typeError "ufunc isnan not supported for the input types")

/-- validate_data from tufte_style_plots/utils.py: convert the input
inside a try-block (re-raising conversion failures as TypeError), then
reject empty arrays, then reject all-NaN arrays.  The np.isnan call of
the all-NaN check is outside the try-block, so a TypeError it raises on
a non-float array propagates as-is. -/
def validate_data (data : PyObj) (name : String) : Except PyError NpArray :=
  match to_array data with
  | .error e => .error (.typeError ("Could not convert " ++ name ++ " to array: " ++ e))
  | .ok arr =>
    if npSize arr = 0 then .error (.valueError (name ++ " is empty"))
    else
      match np_isnan_all arr with
      | .error e => .error e
      | .ok true => .error (.valueError (name ++ " contains only NaN values"))
      | .ok false => .ok arr

/-- GRAYSCALE_PALETTE from tufte_style_plots/styles.py: the four-color
grayscale cycle used when no custom colors are supplied. -/
def GRAYSCALE_PALETTE : List String :=
  ["#000000", "#666666", "#999999", "#CCCCCC"]

/-- The float entries of a numeric array.  The string case never reaches
the call sites of this function: validate_data rejects every non-empty
string array (its NaN check raises), so the value chosen for it is
irrelevant. -/
def floatsOf : NpArray → List Val
  | .floats l => l
  | .strs _ => []

/-- histogram from tufte_style_plots/core.py, restricted to the state
the claims are about.  In source order: validate the data, create (or
reuse) the axes, compute the normalized histogram, plot the bars
(reading bin_edges[1] - bin_edges[0], an IndexError when there are
fewer than two edges), style, then apply a range frame to the x axis
only and set the y axis to start at zero.  Bar drawing and styling touch
only rendering properties outside the modelled state; the one modelled
field they could autoscale, the upper y display limit, is left
unspecified here and no theorem below mentions it after plotting.
np.histogram failures (ValueError) propagate. -/
def histogram (nbinsOf : List Val → ℕ) (data : PyObj) (bins : Bins)
    (axOpt : Option AxesState) : Except PyError AxesState :=
  match validate_data data "data" with
  | .error e => .error e
  | .ok data_array =>
    let ax := axOpt.getD defaultAxes
    match data_array with
    | .strs _ => .error (.typeError "cannot perform reduce with flexible type")
    | .floats l =>
      match normalize_to_percentage nbinsOf l bins with
      | .error e => .error (.valueError e)
      | .ok (_percentages, bin_edges) =>
        if bin_edges.length < 2 then
          .error (.typeError "IndexError: index 1 is out of bounds")
        else
          let ax := range_frame ax (some l) none (2/100) (2/100)
          .ok (set_ylim_bottom ax (.num 0))

/-- The y argument of line: either a single array-like of numbers, or a
Python list whose elements are array-likes (the multiple-series form,
recognized by the source when the list is non-empty and its first
element is a list or array). -/
inductive LineY where
  | arr (o : PyObj)
  | arrList (ys : List PyObj)
deriving DecidableEq

/-- The labels argument of line: nothing, a single string, or a list of
strings. -/
inductive LabelsArg where
  | noLabels
  | one (s : String)
  | many (ls : List String)
deriving DecidableEq

/-- One plotted line series: the validated data it was drawn from, the
color it received, and its legend label. -/
structure PlottedLine where
  data : NpArray
  color : String
  label : Option String
deriving DecidableEq

/-- line from tufte_style_plots/core.py.  In source order: validate x;
dispatch on the shape of y and validate every series; reject any series
whose length differs from x (at the first offending index); create the
axes; resolve colors (defaulting to the grayscale palette sliced to the
series count, or extending a too-short custom list from the palette);
resolve labels (padding with None); plot one line per element of
zip(y_arrays, colors, label_list) — the zip truncates to the shortest
of the three; finally apply a range frame using x and the concatenation
of all validated series.  Returns the plotted series and the final axes
state. -/
def line (x : PyObj) (y : LineY) (labels : LabelsArg)
    (colors : Option (List String)) :
    Except PyError (List PlottedLine × AxesState) :=
  match validate_data x "x" with
  | .error e => .error e
  | .ok x_array =>
    let validated : Except PyError (List NpArray) :=
      match y with
      | .arrList (y0 :: rest) =>
        (y0 :: rest).enum.mapM fun p =>
          validate_data p.2 ("y[" ++ toString p.1 ++ "]")
      | .arrList [] =>
        (validate_data (.numList []) "y").map fun a => [a]
      | .arr o =>
        (validate_data o "y").map fun a => [a]
    match validated with
    | .error e => .error e
    | .ok y_arrays =>
      match y_arrays.enum.find? fun p => npSize p.2 != npSize x_array with
      | some p =>
        .error (.valueError ("x and y[" ++ toString p.1 ++ "] must have the same length"))
      | none =>
        let colorsL :=
          match colors with
          | none => GRAYSCALE_PALETTE.take y_arrays.length
          | some cs =>
            if cs.length < y_arrays.length then
              cs ++ (GRAYSCALE_PALETTE.drop cs.length).take (y_arrays.length - cs.length)
            else cs
        let label_list0 :=
          match labels with
          | .noLabels => List.replicate y_arrays.length (none : Option String)
          | .one s => [some s]
          | .many ls => ls.map some
        let label_list :=
          label_list0 ++ List.replicate (y_arrays.length - label_list0.length) none
        let plotted :=
          (y_arrays.zip (colorsL.zip label_list)).map fun t =>
            { data := t.1, color := t.2.1, label := t.2.2 : PlottedLine }
        let all_y := (y_arrays.map floatsOf).flatten
        let ax := range_frame defaultAxes (some (floatsOf x_array)) (some all_y)
          (2/100) (2/100)
        .ok (plotted, ax)

/-- scatter from tufte_style_plots/core.py (the basic, marginal-free
path, which is what the claims address): validate x, validate y, reject
mismatched lengths, and only then create the figure and axes, plot, and
apply the range frame to both axes. -/
def scatter (x y : PyObj) : Except PyError AxesState :=
  match validate_data x "x" with
  | .error e => .error e
  | .ok x_array =>
    match validate_data y "y" with
    | .error e => .error e
    | .ok y_array =>
      if npSize x_array != npSize y_array then
        .error (.valueError "x and y must have the same length")
      else
        .ok (range_frame defaultAxes (some (floatsOf x_array))
          (some (floatsOf y_array)) (2/100) (2/100))

/-- A bin specification whose edge list, if explicit, is non-empty (the
integer-count and automatic forms always produce at least one bin). -/
def binsNonempty : Bins → Bool
  | .edges es => !es.isEmpty
  | _ => true

deriving instance DecidableEq for Except

/-! Helper lemmas about the embedded definitions. -/

theorem foldl_min_le_init (t : List ℚ) (a : ℚ) : t.foldl min a ≤ a := by
  induction t generalizing a with
  | nil => simp
  | cons h tl ih => exact le_trans (ih (min a h)) (min_le_left a h)

theorem foldl_min_le_mem (t : List ℚ) (a x : ℚ) (hx : x ∈ t) : t.foldl min a ≤ x := by
  induction t generalizing a with
  | nil => cases hx
  | cons h tl ih =>
    rcases List.mem_cons.mp hx with rfl | hx2
    · exact le_trans (foldl_min_le_init tl (min a x)) (min_le_right a x)
    · exact ih (min a h) hx2

theorem le_foldl_max_init (t : List ℚ) (a : ℚ) : a ≤ t.foldl max a := by
  induction t generalizing a with
  | nil => simp
  | cons h tl ih => exact le_trans (le_max_left a h) (ih (max a h))

theorem le_foldl_max_mem (t : List ℚ) (a x : ℚ) (hx : x ∈ t) : x ≤ t.foldl max a := by
  induction t generalizing a with
  | nil => cases hx
  | cons h tl ih =>
    rcases List.mem_cons.mp hx with rfl | hx2
    · exact le_trans (le_max_right a x) (le_foldl_max_init tl (max a x))
    · exact ih (max a h) hx2

theorem qmin_le_mem (l : List ℚ) (x : ℚ) (hx : x ∈ l) : qmin l ≤ x := by
  cases l with
  | nil => cases hx
  | cons h t =>
    rcases List.mem_cons.mp hx with rfl | hx2
    · exact foldl_min_le_init t x
    · exact foldl_min_le_mem t h x hx2

theorem le_qmax_mem (l : List ℚ) (x : ℚ) (hx : x ∈ l) : x ≤ qmax l := by
  cases l with
  | nil => cases hx
  | cons h t =>
    rcases List.mem_cons.mp hx with rfl | hx2
    · exact le_foldl_max_init t x
    · exact le_foldl_max_mem t h x hx2

theorem foldl_min_const (t : List ℚ) (a : ℚ) (h : ∀ x ∈ t, x = a) :
    t.foldl min a = a := by
  induction t with
  | nil => rfl
  | cons hh tl ih =>
    have hha : hh = a := h hh (by simp)
    subst hha
    simpa using ih fun x hx => h x (List.mem_cons_of_mem _ hx)

theorem foldl_max_const (t : List ℚ) (a : ℚ) (h : ∀ x ∈ t, x = a) :
    t.foldl max a = a := by
  induction t with
  | nil => rfl
  | cons hh tl ih =>
    have hha : hh = a := h hh (by simp)
    subst hha
    simpa using ih fun x hx => h x (List.mem_cons_of_mem _ hx)

theorem qmin_const (l : List ℚ) (v : ℚ) (hne : l ≠ []) (h : ∀ x ∈ l, x = v) :
    qmin l = v := by
  cases l with
  | nil => cases hne rfl
  | cons a t =>
    have hav : a = v := h a (by simp)
    subst hav
    exact foldl_min_const t a fun x hx => h x (List.mem_cons_of_mem _ hx)

theorem qmax_const (l : List ℚ) (v : ℚ) (hne : l ≠ []) (h : ∀ x ∈ l, x = v) :
    qmax l = v := by
  cases l with
  | nil => cases hne rfl
  | cons a t =>
    have hav : a = v := h a (by simp)
    subst hav
    exact foldl_max_const t a fun x hx => h x (List.mem_cons_of_mem _ hx)

theorem foldl_vmin2_map_num (t : List ℚ) (a : ℚ) :
    (t.map Val.num).foldl vmin2 (Val.num a) = Val.num (t.foldl min a) := by
  induction t generalizing a with
  | nil => rfl
  | cons h tl ih => simpa using ih (min a h)

theorem foldl_vmax2_map_num (t : List ℚ) (a : ℚ) :
    (t.map Val.num).foldl vmax2 (Val.num a) = Val.num (t.foldl max a) := by
  induction t generalizing a with
  | nil => rfl
  | cons h tl ih => simpa using ih (max a h)

theorem npMinl_map_num (l : List ℚ) (h : l ≠ []) :
    npMinl (l.map Val.num) = Val.num (qmin l) := by
  cases l with
  | nil => cases h rfl
  | cons a t => simpa [npMinl, qmin] using foldl_vmin2_map_num t a

theorem npMaxl_map_num (l : List ℚ) (h : l ≠ []) :
    npMaxl (l.map Val.num) = Val.num (qmax l) := by
  cases l with
  | nil => cases h rfl
  | cons a t => simpa [npMaxl, qmax] using foldl_vmax2_map_num t a

theorem sum_map_addf {α : Type} (l : List α) (f g : α → ℕ) :
    (l.map fun a => f a + g a).sum = (l.map f).sum + (l.map g).sum := by
  induction l with
  | nil => rfl
  | cons h t ih => simp only [List.map_cons, List.sum_cons, ih]; omega

theorem sum_indicator_range (n m c : ℕ) (h : m < n) :
    ((List.range n).map fun i => if m = i then c else 0).sum = c := by
  induction n with
  | zero => omega
  | succ k ih =>
    rw [List.range_succ, List.map_append, List.sum_append]
    rcases Nat.lt_succ_iff_lt_or_eq.mp h with h2 | rfl
    · have hmk : m ≠ k := Nat.ne_of_lt h2
      simp [ih h2, hmk]
    · have hz : ((List.range m).map fun i => if m = i then c else 0).sum = 0 := by
        apply List.sum_eq_zero
        intro x hx
        rcases List.mem_map.mp hx with ⟨i, hi, rfl⟩
        have : i < m := List.mem_range.mp hi
        simp [Nat.ne_of_gt this]
      simp [hz]

theorem countP_partition (l : List Val) (p : Val → Bool) (g : Val → ℕ) (n : ℕ)
    (h : ∀ v, p v = true → g v < n) :
    ((List.range n).map fun i => l.countP fun v => p v && (g v == i)).sum
      = l.countP p := by
  induction l with
  | nil => simp
  | cons a t ih =>
    rw [List.countP_cons]
    by_cases hpa : p a = true
    · have hga : g a < n := h a hpa
      calc ((List.range n).map fun i => (a :: t).countP fun v => p v && (g v == i)).sum
          = ((List.range n).map fun i =>
              (t.countP fun v => p v && (g v == i)) + (if g a = i then 1 else 0)).sum := by
            refine congrArg List.sum (List.map_congr_left fun i _ => ?_)
            rw [List.countP_cons]
            by_cases hgi : g a = i
            · simp [hpa, hgi]
            · simp [hpa, hgi, Nat.beq_eq]
        _ = ((List.range n).map fun i => t.countP fun v => p v && (g v == i)).sum
              + ((List.range n).map fun i => (if g a = i then 1 else 0)).sum := by
            rw [← sum_map_addf]
        _ = t.countP p + (if p a = true then 1 else 0) := by
            rw [ih, sum_indicator_range n (g a) 1 hga]
            simp [hpa]
    · have hpa2 : p a = false := by
        cases hp : p a
        · rfl
        · exact absurd hp hpa
      calc ((List.range n).map fun i => (a :: t).countP fun v => p v && (g v == i)).sum
          = ((List.range n).map fun i => t.countP fun v => p v && (g v == i)).sum := by
            refine congrArg List.sum (List.map_congr_left fun i _ => ?_)
            rw [List.countP_cons]
            simp [hpa2]
        _ = t.countP p + (if p a = true then 1 else 0) := by
            rw [ih]
            simp [hpa2]

theorem uniformCounts_sum (xs : List ℚ) (f l : ℚ) (n : ℕ) (hn : 0 < n)
    (hf : ∀ x ∈ xs, f ≤ x) (hl : ∀ x ∈ xs, x ≤ l) :
    (uniformCounts (xs.map Val.num) f l n).sum = xs.length := by
  unfold uniformCounts
  rw [countP_partition _ _ _ n ?hlt]
  case hlt =>
    intro v hv
    cases v with
    | num x =>
      have h1 : min (Int.toNat ⌊(x - f) * n / (l - f)⌋) (n - 1) ≤ n - 1 :=
        Nat.min_le_right _ _
      have h2 : n - 1 < n := Nat.sub_lt hn Nat.one_pos
      simpa [binIdxV, binIndex] using Nat.lt_of_le_of_lt h1 h2
    | nan => simp [inRangeB] at hv
    | inf => simp [inRangeB] at hv
    | ninf => simp [inRangeB] at hv
  rw [List.countP_eq_length.mpr]
  · simp
  · intro v hv
    rcases List.mem_map.mp hv with ⟨x, hx, rfl⟩
    simp [inRangeB, hf x hx, hl x hx]

theorem exists_bounds_outerEdges (xs : List ℚ) (hne : xs ≠ []) :
    ∃ f l : ℚ, outerEdges (xs.map Val.num) = .ok (f, l) ∧
      (∀ x ∈ xs, f ≤ x) ∧ (∀ x ∈ xs, x ≤ l) := by
  have hmap : xs.map Val.num ≠ [] := by
    cases xs with
    | nil => cases hne rfl
    | cons a t => simp
  have hmin := npMinl_map_num xs hne
  have hmax := npMaxl_map_num xs hne
  by_cases hq : qmin xs = qmax xs
  · refine ⟨qmin xs - 1/2, qmax xs + 1/2, ?_, ?_, ?_⟩
    · unfold outerEdges
      cases hxs : xs.map Val.num with
      | nil => cases hmap hxs
      | cons a t =>
        rw [← hxs, hmin, hmax]
        simp [hq]
    · intro x hx
      have := qmin_le_mem xs x hx
      linarith
    · intro x hx
      have := le_qmax_mem xs x hx
      linarith
  · refine ⟨qmin xs, qmax xs, ?_, qmin_le_mem xs, le_qmax_mem xs⟩
    unfold outerEdges
    cases hxs : xs.map Val.num with
    | nil => cases hmap hxs
    | cons a t =>
      rw [← hxs, hmin, hmax]
      simp [hq]

theorem linspace_length (a b : ℚ) (n : ℕ) : (linspace a b n).length = n + 1 := by
  unfold linspace
  rw [List.length_map, List.length_range]

theorem uniformCounts_length (data : List Val) (f l : ℚ) (n : ℕ) :
    (uniformCounts data f l n).length = n := by
  unfold uniformCounts
  rw [List.length_map, List.length_range]

theorem npHistogram_count_spec (nb : List Val → ℕ) (xs : List ℚ) (hne : xs ≠ [])
    (n : ℕ) (hn : 0 < n) :
    ∃ counts edges, npHistogram nb (xs.map Val.num) (Bins.count n) = .ok (counts, edges)
      ∧ counts.sum = xs.length ∧ counts.length = n := by
  obtain ⟨f, l, hoe, hf, hl⟩ := exists_bounds_outerEdges xs hne
  refine ⟨uniformCounts (xs.map Val.num) f l n, linspace f l n, ?_,
    uniformCounts_sum xs f l n hn hf hl, uniformCounts_length _ f l n⟩
  simp only [npHistogram]
  rw [if_neg (Nat.pos_iff_ne_zero.mp hn), hoe]

theorem npHistogram_auto_spec (nb : List Val → ℕ) (xs : List ℚ) (hne : xs ≠ []) :
    ∃ counts edges, npHistogram nb (xs.map Val.num) Bins.auto = .ok (counts, edges)
      ∧ counts.sum = xs.length := by
  obtain ⟨f, l, hoe, hf, hl⟩ := exists_bounds_outerEdges xs hne
  refine ⟨uniformCounts (xs.map Val.num) f l (max (nb (xs.map Val.num)) 1),
    linspace f l (max (nb (xs.map Val.num)) 1), ?_,
    uniformCounts_sum xs f l _ (by omega) hf hl⟩
  simp only [npHistogram]
  rw [hoe]

theorem normalize_of_sum_pos (nb : List Val → ℕ) (data : List Val) (bins : Bins)
    (counts : List ℕ) (edges : List ℚ)
    (hok : npHistogram nb data bins = .ok (counts, edges)) (hpos : 0 < counts.sum) :
    normalize_to_percentage nb data bins =
      .ok (counts.map (fun c : ℕ => (c : ℚ) / counts.sum * 100), edges) := by
  unfold normalize_to_percentage
  rw [hok]
  simp [hpos]

theorem sum_map_percent (counts : List ℕ) (t : ℚ) :
    (counts.map fun c : ℕ => (c : ℚ) / t * 100).sum = (counts.sum : ℚ) / t * 100 := by
  induction counts with
  | nil => simp
  | cons c cs ih =>
    simp only [List.map_cons, List.sum_cons, ih, List.sum_cons]
    push_cast
    ring

theorem percent_sum_100 (counts : List ℕ) (hpos : 0 < counts.sum) :
    (counts.map fun c : ℕ => (c : ℚ) / counts.sum * 100).sum = 100 := by
  rw [sum_map_percent]
  have h0 : ((counts.sum : ℕ) : ℚ) ≠ 0 :=
    Nat.cast_ne_zero.mpr (Nat.pos_iff_ne_zero.mp hpos)
  rw [div_self h0, one_mul]

theorem validate_numList (l : List Val) (name : String) :
    validate_data (.numList l) name =
      if l.length = 0 then .error (.valueError (name ++ " is empty"))
      else if l.all isNanV then
        .error (.valueError (name ++ " contains only NaN values"))
      else .ok (.floats l) := by
  unfold validate_data
  by_cases h1 : l.length = 0
  · simp [to_array, npSize, h1]
  · cases h2 : l.all isNanV
    · simp [to_array, npSize, np_isnan_all, h1, h2]
    · simp [to_array, npSize, np_isnan_all, h1, h2]

theorem map_num_all_not_nan (l : List ℚ) (h : l ≠ []) :
    (l.map Val.num).all isNanV = false := by
  cases l with
  | nil => cases h rfl
  | cons a t => simp [isNanV]

theorem validate_pure (l : List ℚ) (name : String) (h : l ≠ []) :
    validate_data (.numList (l.map Val.num)) name = .ok (.floats (l.map Val.num)) := by
  rw [validate_numList]
  have h1 : (l.map Val.num).length ≠ 0 := by
    simpa using fun hh => h (List.length_eq_zero.mp hh)
  rw [if_neg h1, map_num_all_not_nan l h, if_neg (by simp)]

theorem range_frame_x_only (ax : AxesState) (xd : List Val) (xp yp : ℚ) :
    (range_frame ax (some xd) none xp yp).bottomBounds = some (npMinl xd, npMaxl xd) ∧
    (range_frame ax (some xd) none xp yp).leftBounds = ax.leftBounds ∧
    (range_frame ax (some xd) none xp yp).ylim = ax.ylim := by
  unfold range_frame
  by_cases h : vgt0 (vsub (npMaxl xd) (npMinl xd)) = true <;> simp [h]

theorem range_frame_none_x (ax : AxesState) (yd : Option (List Val)) (xp yp : ℚ) :
    (range_frame ax none yd xp yp).xlim = ax.xlim ∧
    (range_frame ax none yd xp yp).bottomBounds = ax.bottomBounds := by
  unfold range_frame
  cases yd with
  | none => simp
  | some l => by_cases h : vgt0 (vsub (npMaxl l) (npMinl l)) = true <;> simp [h]

theorem range_frame_none_y (ax : AxesState) (xd : Option (List Val)) (xp yp : ℚ) :
    (range_frame ax xd none xp yp).ylim = ax.ylim ∧
    (range_frame ax xd none xp yp).leftBounds = ax.leftBounds := by
  unfold range_frame
  cases xd with
  | none => simp
  | some l => by_cases h : vgt0 (vsub (npMaxl l) (npMinl l)) = true <;> simp [h]

theorem npHistogram_length (nb : List Val → ℕ) (data : List Val) (bins : Bins)
    (counts : List ℕ) (edges : List ℚ) (hb : binsNonempty bins = true)
    (hok : npHistogram nb data bins = .ok (counts, edges)) :
    edges.length = counts.length + 1 := by
  cases bins with
  | edges es =>
    simp only [npHistogram] at hok
    by_cases hm : edgesMonotone es = true
    · rw [if_pos hm] at hok
      have h1 : edgeCounts data es = counts ∧ es = edges := by
        have := hok
        injection this with h
        exact ⟨congrArg Prod.fst h, congrArg Prod.snd h⟩
      obtain ⟨hc, he⟩ := h1
      have hlen : counts.length = es.length - 1 := by
        rw [← hc]; simp [edgeCounts]
      have hes : es ≠ [] := by
        simpa [binsNonempty, List.isEmpty_iff] using hb
      have : 1 ≤ es.length := by
        cases es with
        | nil => cases hes rfl
        | cons a t => simp
      rw [← he]
      omega
    · rw [if_neg hm] at hok
      cases hok
  | count n =>
    simp only [npHistogram] at hok
    by_cases hn : n = 0
    · rw [if_pos hn] at hok
      cases hok
    · rw [if_neg hn] at hok
      cases hoe : outerEdges data with
      | error e => rw [hoe] at hok; cases hok
      | ok fl =>
        obtain ⟨f, l⟩ := fl
        rw [hoe] at hok
        injection hok with h
        have hc : uniformCounts data f l n = counts := congrArg Prod.fst h
        have he : linspace f l n = edges := congrArg Prod.snd h
        rw [← hc, ← he, linspace_length, uniformCounts_length]
  | auto =>
    simp only [npHistogram] at hok
    cases hoe : outerEdges data with
    | error e => rw [hoe] at hok; cases hok
    | ok fl =>
      obtain ⟨f, l⟩ := fl
      rw [hoe] at hok
      injection hok with h
      have hc : uniformCounts data f l (max (nb data) 1) = counts := congrArg Prod.fst h
      have he : linspace f l (max (nb data) 1) = edges := congrArg Prod.snd h
      rw [← hc, ← he, linspace_length, uniformCounts_length]

/-! The claim theorems. -/

/-- C1: For every non-empty fully numeric sample, normalize_to_percentage
with an integer bin count, and likewise with the automatic strategy under
any bin-count heuristic, returns exactly the per-bin counts divided by the
total count times 100, with the total equal to the sample size, and the
percentages sum to exactly 100; and on the sample [1,2,2,3,3,3] with the
3 bins of width 1 given by edges [0.5, 1.5, 2.5, 3.5] the counts are
[1,2,3] and the percentages are [50/3, 100/3, 50], i.e. [16.67, 33.33,
50.0] up to display rounding, which sum to 100. -/
theorem C1_percentages_sum_to_100 (xs : List ℚ) (n : ℕ) (nb : List Val → ℕ)
    (hne : xs ≠ []) (hn : 0 < n) :
    (∃ counts edges,
        npHistogram nb (xs.map Val.num) (Bins.count n) = .ok (counts, edges) ∧
        normalize_to_percentage nb (xs.map Val.num) (Bins.count n) =
          .ok (counts.map (fun c : ℕ => (c : ℚ) / counts.sum * 100), edges) ∧
        counts.sum = xs.length ∧
        (counts.map (fun c : ℕ => (c : ℚ) / counts.sum * 100)).sum = 100) ∧
    (∃ counts edges,
        npHistogram nb (xs.map Val.num) Bins.auto = .ok (counts, edges) ∧
        normalize_to_percentage nb (xs.map Val.num) Bins.auto =
          .ok (counts.map (fun c : ℕ => (c : ℚ) / counts.sum * 100), edges) ∧
        counts.sum = xs.length ∧
        (counts.map (fun c : ℕ => (c : ℚ) / counts.sum * 100)).sum = 100) ∧
    npHistogram nb
        [Val.num 1, Val.num 2, Val.num 2, Val.num 3, Val.num 3, Val.num 3]
        (Bins.edges [1/2, 3/2, 5/2, 7/2]) =
      .ok ([1, 2, 3], [1/2, 3/2, 5/2, 7/2]) ∧
    normalize_to_percentage nb
        [Val.num 1, Val.num 2, Val.num 2, Val.num 3, Val.num 3, Val.num 3]
        (Bins.edges [1/2, 3/2, 5/2, 7/2]) =
      .ok ([50/3, 100/3, 50], [1/2, 3/2, 5/2, 7/2]) ∧
    ([50/3, 100/3, 50] : List ℚ).sum = 100 := by
  have hlen : 0 < xs.length := List.length_pos.mpr hne
  refine ⟨?_, ?_, ?_, ?_, by norm_num⟩
  · obtain ⟨counts, edges, hok, hsum, hclen⟩ := npHistogram_count_spec nb xs hne n hn
    exact ⟨counts, edges, hok,
      normalize_of_sum_pos nb _ _ counts edges hok (hsum ▸ hlen),
      hsum, percent_sum_100 counts (hsum ▸ hlen)⟩
  · obtain ⟨counts, edges, hok, hsum⟩ := npHistogram_auto_spec nb xs hne
    exact ⟨counts, edges, hok,
      normalize_of_sum_pos nb _ _ counts edges hok (hsum ▸ hlen),
      hsum, percent_sum_100 counts (hsum ▸ hlen)⟩
  · norm_num [npHistogram, edgesMonotone, edgeCounts, edgeBinPred,
      List.countP, List.countP.go, List.range_succ]
  · norm_num [normalize_to_percentage, npHistogram, edgesMonotone, edgeCounts,
      edgeBinPred, List.countP, List.countP.go, List.range_succ]

/-- Witness for C1 at the sample [1,2,2,3,3,3] with 3 bins and the
trivial bin-count heuristic. -/
theorem C1_percentages_sum_to_100_witness :
    ∃ counts edges,
      npHistogram (fun _ => 1) (([1, 2, 2, 3, 3, 3] : List ℚ).map Val.num)
        (Bins.count 3) = .ok (counts, edges) ∧
      normalize_to_percentage (fun _ => 1) (([1, 2, 2, 3, 3, 3] : List ℚ).map Val.num)
        (Bins.count 3) =
        .ok (counts.map (fun c : ℕ => (c : ℚ) / counts.sum * 100), edges) ∧
      counts.sum = ([1, 2, 2, 3, 3, 3] : List ℚ).length ∧
      (counts.map (fun c : ℕ => (c : ℚ) / counts.sum * 100)).sum = 100 :=
  (C1_percentages_sum_to_100 [1, 2, 2, 3, 3, 3] 3 (fun _ => 1)
    (by simp) (by omega)).1

/-- C2: For every pair of data arrays with positive range and every
padding fraction, range_frame sets the display limits of each axis to
the data extent padded by the fraction of the range on each side, and
sets the drawn bounds of the bottom spine (x) and left spine (y) to the
exact unpadded extent, independent of the padding. -/
theorem C2_range_frame_exact_bounds (xs ys : List ℚ) (xpad ypad : ℚ)
    (ax : AxesState) (hx : xs ≠ []) (hy : ys ≠ [])
    (hxr : qmin xs < qmax xs) (hyr : qmin ys < qmax ys) :
    (range_frame ax (some (xs.map Val.num)) (some (ys.map Val.num)) xpad ypad).xlim =
      (Val.num (qmin xs - xpad * (qmax xs - qmin xs)),
       Val.num (qmax xs + xpad * (qmax xs - qmin xs))) ∧
    (range_frame ax (some (xs.map Val.num)) (some (ys.map Val.num)) xpad ypad).bottomBounds =
      some (Val.num (qmin xs), Val.num (qmax xs)) ∧
    (range_frame ax (some (xs.map Val.num)) (some (ys.map Val.num)) xpad ypad).ylim =
      (Val.num (qmin ys - ypad * (qmax ys - qmin ys)),
       Val.num (qmax ys + ypad * (qmax ys - qmin ys))) ∧
    (range_frame ax (some (xs.map Val.num)) (some (ys.map Val.num)) xpad ypad).leftBounds =
      some (Val.num (qmin ys), Val.num (qmax ys)) := by
  have hxpos : (0 : ℚ) < qmax xs - qmin xs := sub_pos.mpr hxr
  have hypos : (0 : ℚ) < qmax ys - qmin ys := sub_pos.mpr hyr
  unfold range_frame
  dsimp only
  rw [npMinl_map_num xs hx, npMaxl_map_num xs hx,
    npMinl_map_num ys hy, npMaxl_map_num ys hy]
  simp [vsub, vadd, vscale, vgt0, hxpos, hypos]

/-- Witness for C2 at xs = [1, 3], ys = [2, 5] with 2% padding on a
fresh axes state. -/
theorem C2_range_frame_exact_bounds_witness :
    (range_frame defaultAxes (some (([1, 3] : List ℚ).map Val.num))
        (some (([2, 5] : List ℚ).map Val.num)) (2/100) (2/100)).xlim =
      (Val.num (qmin [1, 3] - 2/100 * (qmax [1, 3] - qmin [1, 3])),
       Val.num (qmax [1, 3] + 2/100 * (qmax [1, 3] - qmin [1, 3]))) ∧
    (range_frame defaultAxes (some (([1, 3] : List ℚ).map Val.num))
        (some (([2, 5] : List ℚ).map Val.num)) (2/100) (2/100)).bottomBounds =
      some (Val.num (qmin [1, 3]), Val.num (qmax [1, 3])) ∧
    (range_frame defaultAxes (some (([1, 3] : List ℚ).map Val.num))
        (some (([2, 5] : List ℚ).map Val.num)) (2/100) (2/100)).ylim =
      (Val.num (qmin [2, 5] - 2/100 * (qmax [2, 5] - qmin [2, 5])),
       Val.num (qmax [2, 5] + 2/100 * (qmax [2, 5] - qmin [2, 5]))) ∧
    (range_frame defaultAxes (some (([1, 3] : List ℚ).map Val.num))
        (some (([2, 5] : List ℚ).map Val.num)) (2/100) (2/100)).leftBounds =
      some (Val.num (qmin [2, 5]), Val.num (qmax [2, 5])) :=
  C2_range_frame_exact_bounds [1, 3] [2, 5] (2/100) (2/100) defaultAxes
    (by simp) (by simp) (by norm_num [qmin, qmax]) (by norm_num [qmin, qmax])

/-- C3: For every constant data array (all entries equal to v),
range_frame sets the display limits to the fixed absolute pad
[v - 0.5, v + 0.5] and the spine bounds to the collapsed point (v, v),
on the x axis and on the y axis alike. -/
theorem C3_degenerate_range_fixed_pad (xs ys : List ℚ) (v w : ℚ)
    (xpad ypad : ℚ) (ax : AxesState) (hx : xs ≠ []) (hy : ys ≠ [])
    (hxv : ∀ x ∈ xs, x = v) (hyw : ∀ y ∈ ys, y = w) :
    (range_frame ax (some (xs.map Val.num)) (some (ys.map Val.num)) xpad ypad).xlim =
      (Val.num (v - 1/2), Val.num (v + 1/2)) ∧
    (range_frame ax (some (xs.map Val.num)) (some (ys.map Val.num)) xpad ypad).bottomBounds =
      some (Val.num v, Val.num v) ∧
    (range_frame ax (some (xs.map Val.num)) (some (ys.map Val.num)) xpad ypad).ylim =
      (Val.num (w - 1/2), Val.num (w + 1/2)) ∧
    (range_frame ax (some (xs.map Val.num)) (some (ys.map Val.num)) xpad ypad).leftBounds =
      some (Val.num w, Val.num w) := by
  unfold range_frame
  dsimp only
  rw [npMinl_map_num xs hx, npMaxl_map_num xs hx,
    npMinl_map_num ys hy, npMaxl_map_num ys hy,
    qmin_const xs v hx hxv, qmax_const xs v hx hxv,
    qmin_const ys w hy hyw, qmax_const ys w hy hyw]
  simp [vsub, vadd, vgt0]

/-- Witness for C3 at the spec example [5.0] repeated 100 times (on both
axes): frame bounds collapse to (5, 5) and display bounds are
(4.5, 5.5). -/
theorem C3_degenerate_range_fixed_pad_witness :
    (range_frame defaultAxes (some ((List.replicate 100 (5 : ℚ)).map Val.num))
        (some ((List.replicate 100 (5 : ℚ)).map Val.num)) (2/100) (2/100)).xlim =
      (Val.num (5 - 1/2), Val.num (5 + 1/2)) ∧
    (range_frame defaultAxes (some ((List.replicate 100 (5 : ℚ)).map Val.num))
        (some ((List.replicate 100 (5 : ℚ)).map Val.num)) (2/100) (2/100)).bottomBounds =
      some (Val.num 5, Val.num 5) ∧
    (range_frame defaultAxes (some ((List.replicate 100 (5 : ℚ)).map Val.num))
        (some ((List.replicate 100 (5 : ℚ)).map Val.num)) (2/100) (2/100)).ylim =
      (Val.num (5 - 1/2), Val.num (5 + 1/2)) ∧
    (range_frame defaultAxes (some ((List.replicate 100 (5 : ℚ)).map Val.num))
        (some ((List.replicate 100 (5 : ℚ)).map Val.num)) (2/100) (2/100)).leftBounds =
      some (Val.num 5, Val.num 5) :=
  C3_degenerate_range_fixed_pad (List.replicate 100 5) (List.replicate 100 5)
    5 5 (2/100) (2/100) defaultAxes (by simp) (by simp)
    (fun x hx => List.eq_of_mem_replicate hx)
    (fun y hy => List.eq_of_mem_replicate hy)

/-- C4: Whenever the binned counts sum to zero, normalize_to_percentage
takes the guarded non-division branch, returning the counts cast to
rationals, which are all zero — no division is attempted. -/
theorem C4_zero_total_all_zero (nb : List Val → ℕ) (data : List Val)
    (bins : Bins) (counts : List ℕ) (edges : List ℚ)
    (hok : npHistogram nb data bins = .ok (counts, edges))
    (hzero : counts.sum = 0) :
    normalize_to_percentage nb data bins =
      .ok (counts.map (fun c : ℕ => (c : ℚ)), edges) ∧
    ∀ p ∈ counts.map (fun c : ℕ => (c : ℚ)), p = 0 := by
  constructor
  · unfold normalize_to_percentage
    rw [hok]
    simp [hzero]
  · intro p hp
    rcases List.mem_map.mp hp with ⟨c, hc, rfl⟩
    have hc0 : c = 0 := by
      have := List.sum_eq_zero_iff.mp hzero
      exact this c hc
    simp [hc0]

/-- Witness for C4: the value 10 with explicit bin edges [0, 1] leaves
every bin empty; the result is the all-zero percentage list. -/
theorem C4_zero_total_all_zero_witness :
    normalize_to_percentage (fun _ => 1) [Val.num 10] (Bins.edges [0, 1]) =
      .ok (([0] : List ℕ).map (fun c : ℕ => (c : ℚ)), [0, 1]) ∧
    ∀ p ∈ ([0] : List ℕ).map (fun c : ℕ => (c : ℚ)), p = 0 :=
  C4_zero_total_all_zero (fun _ => 1) [Val.num 10] (Bins.edges [0, 1])
    [0] [0, 1] (by decide) (by decide)

/-- C5: The validator fails exactly on unconvertible input (TypeError),
empty input (ValueError), and all-NaN numeric input (ValueError); and
the paired-array entry points scatter and line raise a ValueError on
mismatched x/y lengths, before any figure value is produced (the error
branches of the embedded entry points are taken before the axes state
is ever constructed). -/
theorem C5_validator_error_cases (name msg : String) (l : List Val)
    (lx ly : List ℚ) (hlx : lx ≠ []) (hly : ly ≠ [])
    (hmm : lx.length ≠ ly.length) :
    validate_data (.ragged msg) name =
      .error (.typeError ("Could not convert " ++ name ++ " to array: " ++ msg)) ∧
    ((∃ e, validate_data (.numList l) name = .error e) ↔
      (l = [] ∨ l.all isNanV = true)) ∧
    validate_data (.numList []) name = .error (.valueError (name ++ " is empty")) ∧
    (l ≠ [] → l.all isNanV = true →
      validate_data (.numList l) name =
        .error (.valueError (name ++ " contains only NaN values"))) ∧
    scatter (.numList (lx.map Val.num)) (.numList (ly.map Val.num)) =
      .error (.valueError "x and y must have the same length") ∧
    line (.numList (lx.map Val.num)) (.arr (.numList (ly.map Val.num)))
        .noLabels none =
      .error (.valueError "x and y[0] must have the same length") := by
  refine ⟨rfl, ?_, ?_, ?_, ?_, ?_⟩
  · rw [validate_numList]
    constructor
    · intro ⟨e, he⟩
      by_cases h1 : l.length = 0
      · exact Or.inl (List.length_eq_zero.mp h1)
      · rw [if_neg h1] at he
        cases h2 : l.all isNanV
        · rw [h2] at he
          simp at he
        · exact Or.inr rfl
    · intro h
      rcases h with rfl | h2
      · exact ⟨.valueError (name ++ " is empty"), by simp⟩
      · by_cases h1 : l.length = 0
        · exact ⟨.valueError (name ++ " is empty"), by rw [if_pos h1]⟩
        · exact ⟨.valueError (name ++ " contains only NaN values"),
            by rw [if_neg h1, h2, if_pos rfl]⟩
  · rw [validate_numList]
    simp
  · intro hne hall
    rw [validate_numList]
    have h1 : l.length ≠ 0 := by
      simpa using fun hh => hne (List.length_eq_zero.mp hh)
    rw [if_neg h1, hall, if_pos rfl]
  · unfold scatter
    rw [validate_pure lx _ hlx]
    dsimp only
    rw [validate_pure ly _ hly]
    dsimp only
    have hb : (npSize (.floats (lx.map Val.num)) !=
        npSize (.floats (ly.map Val.num))) = true := by
      simp [npSize, hmm]
    rw [if_pos hb]
  · unfold line
    rw [validate_pure lx _ hlx]
    dsimp only
    rw [validate_pure ly _ hly]
    dsimp only [Except.map]
    have hb : (npSize (NpArray.floats (ly.map Val.num)) !=
        npSize (NpArray.floats (lx.map Val.num))) = true := by
      simp [npSize]
      omega
    simp only [List.enum_cons, List.find?_cons, hb]
    rfl

/-- Witness for C5: the empty sample, the all-NaN sample of the repo
test suite, a ragged input, and the mismatched pair x = [1,2,3],
y = [1,2,3,4,5] against both scatter and line. -/
theorem C5_validator_error_cases_witness :
    validate_data (.ragged "inhomogeneous shape") "data" =
      .error (.typeError ("Could not convert " ++ "data" ++ " to array: "
        ++ "inhomogeneous shape")) ∧
    validate_data (.numList []) "data" =
      .error (.valueError ("data" ++ " is empty")) ∧
    validate_data (.numList [Val.nan, Val.nan, Val.nan]) "data" =
      .error (.valueError ("data" ++ " contains only NaN values")) ∧
    scatter (.numList (([1, 2, 3] : List ℚ).map Val.num))
        (.numList (([1, 2, 3, 4, 5] : List ℚ).map Val.num)) =
      .error (.valueError "x and y must have the same length") ∧
    line (.numList (([1, 2, 3] : List ℚ).map Val.num))
        (.arr (.numList (([1, 2, 3, 4, 5] : List ℚ).map Val.num)))
        .noLabels none =
      .error (.valueError "x and y[0] must have the same length") := by
  have h := C5_validator_error_cases "data" "inhomogeneous shape"
    [Val.nan, Val.nan, Val.nan] [1, 2, 3] [1, 2, 3, 4, 5]
    (by simp) (by simp) (by simp)
  exact ⟨h.1, h.2.2.1, h.2.2.2.1 (by simp) (by decide), h.2.2.2.2.1, h.2.2.2.2.2⟩

/-- C6: the repository intends samples containing infinities or a mix of
NaN and numeric values to be accepted by the histogram entry point
(its own test suite runs them as expected-pass cases E04 and E05), but
numpy's automatic binning computes the data range first and raises
ValueError on any non-finite extremum, so histogram with its default
bins fails on exactly those inputs, whatever bin-count heuristic is in
effect and whatever axes are supplied. -/
theorem C6_histogram_raises_on_nonfinite (nb : List Val → ℕ)
    (ax : Option AxesState) :
    histogram nb (.numList [Val.num 1, Val.num 2, Val.nan, Val.num 4,
        Val.num 5, Val.nan, Val.num 7]) Bins.auto ax =
      .error (.valueError "autodetected range of data is not finite") ∧
    histogram nb (.numList [Val.num 1, Val.num 2, Val.num 3, Val.inf,
        Val.num 5, Val.num 6]) Bins.auto ax =
      .error (.valueError "autodetected range of data is not finite") :=
  ⟨rfl, rfl⟩

/-- C7 counterexample: with the empty explicit bin-edge sequence,
normalize_to_percentage returns an empty percentage list together with
the empty edge list, so the edges do not have one more element than the
percentages. -/
theorem C7_empty_edges_counterexample :
    normalize_to_percentage (fun _ => 1) [Val.num 1] (Bins.edges []) =
      .ok ([], []) ∧
    ¬ (([] : List ℚ).length = ([] : List ℚ).length + 1) := by
  exact ⟨rfl, by simp⟩

/-- C7 (amended): for every bin specification other than an empty
explicit edge sequence, a successful normalize_to_percentage returns a
bin-edge sequence with exactly one more element than the percentage
sequence. -/
theorem C7_edges_one_longer (nb : List Val → ℕ) (data : List Val)
    (bins : Bins) (ps es : List ℚ) (hb : binsNonempty bins = true)
    (hok : normalize_to_percentage nb data bins = .ok (ps, es)) :
    es.length = ps.length + 1 := by
  unfold normalize_to_percentage at hok
  cases hh : npHistogram nb data bins with
  | error e =>
    rw [hh] at hok
    cases hok
  | ok ce =>
    obtain ⟨counts, edges⟩ := ce
    rw [hh] at hok
    dsimp only at hok
    have hlen := npHistogram_length nb data bins counts edges hb hh
    by_cases hz : 0 < counts.sum
    · rw [if_pos hz] at hok
      injection hok with h
      have h1 : counts.map (fun c : ℕ => (c : ℚ) / counts.sum * 100) = ps :=
        congrArg Prod.fst h
      have h2 : edges = es := congrArg Prod.snd h
      rw [← h2, ← h1, hlen, List.length_map]
    · rw [if_neg hz] at hok
      injection hok with h
      have h1 : counts.map (fun c : ℕ => (c : ℚ)) = ps := congrArg Prod.fst h
      have h2 : edges = es := congrArg Prod.snd h
      rw [← h2, ← h1, hlen, List.length_map]

/-- Witness for C7 (amended): the out-of-range value 10 with edges
[0, 1] gives one (empty) bin and two edges. -/
theorem C7_edges_one_longer_witness :
    ([0, 1] : List ℚ).length = ([0] : List ℚ).length + 1 :=
  C7_edges_one_longer (fun _ => 1) [Val.num 10] (Bins.edges [0, 1])
    [0] [0, 1] (by decide) (by decide)

/-- C10: a non-empty input that converts to a string-typed array makes
validate_data raise the TypeError coming from np.isnan — not the
"contains only NaN values" ValueError, which is reachable only for
float-typed arrays. -/
theorem C10_string_array_typeerror (s : List String) (name : String)
    (h : s ≠ []) :
    validate_data (.strList s) name =
      .error (.typeError "ufunc isnan not supported for the input types") ∧
    validate_data (.strList s) name ≠
      .error (.valueError (name ++ " contains only NaN values")) := by
  have h1 : validate_data (.strList s) name =
      .error (.typeError "ufunc isnan not supported for the input types") := by
    unfold validate_data
    have hlen : (npSize (NpArray.strs s)) ≠ 0 := by
      simpa [npSize] using fun hh => h (List.length_eq_zero.mp hh)
    simp [to_array, np_isnan_all, hlen]
  refine ⟨h1, ?_⟩
  rw [h1]
  simp

/-- Witness for C10 at the singleton string array ["a"]. -/
theorem C10_string_array_typeerror_witness :
    validate_data (.strList ["a"]) "data" =
      .error (.typeError "ufunc isnan not supported for the input types") ∧
    validate_data (.strList ["a"]) "data" ≠
      .error (.valueError ("data" ++ " contains only NaN values")) :=
  C10_string_array_typeerror ["a"] "data" (by simp)

/-- C8: range_frame acts on each axis independently — with no x data the
x display limits and bottom-spine bounds are untouched, with no y data
the y display limits and left-spine bounds are untouched — and the
histogram entry point range-frames only the x axis: the bottom spine is
bounded to the data extent, the left spine is left alone, and the y axis
is made to start at zero. -/
theorem C8_per_axis_and_histogram (ax : AxesState) (xd yd : Option (List Val))
    (xp yp : ℚ) (l : List ℚ) (hl : l ≠ []) :
    ((range_frame ax none yd xp yp).xlim = ax.xlim ∧
     (range_frame ax none yd xp yp).bottomBounds = ax.bottomBounds) ∧
    ((range_frame ax xd none xp yp).ylim = ax.ylim ∧
     (range_frame ax xd none xp yp).leftBounds = ax.leftBounds) ∧
    (∀ nb : List Val → ℕ, ∀ ax2 : AxesState, ∃ st : AxesState,
      histogram nb (.numList (l.map Val.num)) (Bins.count 2) (some ax2) =
        .ok st ∧
      st.bottomBounds = some (Val.num (qmin l), Val.num (qmax l)) ∧
      st.leftBounds = ax2.leftBounds ∧
      st.ylim.1 = Val.num 0) := by
  refine ⟨range_frame_none_x ax yd xp yp, range_frame_none_y ax xd xp yp, ?_⟩
  intro nb ax2
  obtain ⟨counts, edges, hok, hsum, hclen⟩ :=
    npHistogram_count_spec nb l hl 2 (by omega)
  have hlen0 : 0 < l.length := List.length_pos.mpr hl
  have hnorm := normalize_of_sum_pos nb _ _ counts edges hok (hsum ▸ hlen0)
  have helen : edges.length = counts.length + 1 :=
    npHistogram_length nb _ _ counts edges (by decide) hok
  have hrf := range_frame_x_only ax2 (l.map Val.num) (2/100) (2/100)
  refine ⟨set_ylim_bottom
    (range_frame ax2 (some (l.map Val.num)) none (2/100) (2/100)) (.num 0),
    ?_, ?_, ?_, ?_⟩
  · unfold histogram
    rw [validate_pure l _ hl]
    dsimp only [Option.getD]
    rw [hnorm]
    dsimp only
    rw [if_neg (by omega)]
  · show (set_ylim_bottom _ _).bottomBounds = _
    rw [set_ylim_bottom]
    dsimp only
    rw [hrf.1, npMinl_map_num l hl, npMaxl_map_num l hl]
  · show (set_ylim_bottom _ _).leftBounds = _
    rw [set_ylim_bottom]
    dsimp only
    exact hrf.2.1
  · rfl

/-- Witness for C8 at l = [1, 2] on fresh axes with the default 2%
padding and the trivial bin-count heuristic. -/
theorem C8_per_axis_and_histogram_witness :
    ((range_frame defaultAxes none (some [Val.num 2]) (2/100) (2/100)).xlim =
        defaultAxes.xlim ∧
     (range_frame defaultAxes none (some [Val.num 2]) (2/100) (2/100)).bottomBounds =
        defaultAxes.bottomBounds) ∧
    ((range_frame defaultAxes (some [Val.num 2]) none (2/100) (2/100)).ylim =
        defaultAxes.ylim ∧
     (range_frame defaultAxes (some [Val.num 2]) none (2/100) (2/100)).leftBounds =
        defaultAxes.leftBounds) ∧
    (∃ st : AxesState,
      histogram (fun _ => 1) (.numList (([1, 2] : List ℚ).map Val.num))
          (Bins.count 2) (some defaultAxes) = .ok st ∧
      st.bottomBounds = some (Val.num (qmin [1, 2]), Val.num (qmax [1, 2])) ∧
      st.leftBounds = defaultAxes.leftBounds ∧
      st.ylim.1 = Val.num 0) := by
  have h := C8_per_axis_and_histogram defaultAxes (some [Val.num 2])
    (some [Val.num 2]) (2/100) (2/100) [1, 2] (by simp)
  exact ⟨h.1, h.2.1, h.2.2 (fun _ => 1) defaultAxes⟩

theorem mapM_validate_pure (lys : List (List ℚ)) (k : ℕ)
    (h : ∀ ly ∈ lys, ly ≠ []) :
    (List.enumFrom k (lys.map fun ly => PyObj.numList (ly.map Val.num))).mapM
        (fun p => validate_data p.2 ("y[" ++ toString p.1 ++ "]")) =
      .ok (lys.map fun ly => NpArray.floats (ly.map Val.num)) := by
  induction lys generalizing k with
  | nil => rfl
  | cons a t ih =>
    rw [List.map_cons, List.enumFrom_cons, List.mapM_cons,
      validate_pure a _ (h a (by simp)),
      ih (k + 1) (fun ly hly => h ly (List.mem_cons_of_mem _ hly))]
    rfl

theorem find?_size_none (xlen : ℕ) (arrs : List NpArray) (k : ℕ)
    (h : ∀ a ∈ arrs, npSize a = xlen) :
    (List.enumFrom k arrs).find? (fun p => npSize p.2 != xlen) = none := by
  induction arrs generalizing k with
  | nil => rfl
  | cons a t ih =>
    rw [List.enumFrom_cons, List.find?_cons]
    have hfa : (npSize a != xlen) = false := by simp [h a (by simp)]
    simp only [hfa]
    exact ih (k + 1) fun a2 ha2 => h a2 (List.mem_cons_of_mem _ ha2)

/-- C9: when line is called with colors = None and more than four
series, the plotting loop iterates over the zip of the validated series,
the sliced grayscale palette and the label list, which truncates to the
palette length: exactly four series are plotted and the rest are
silently dropped, even though every series was validated and
length-checked. -/
theorem C9_line_truncates_to_palette (lx : List ℚ) (lys : List (List ℚ))
    (hlx : lx ≠ []) (hk : 4 < lys.length)
    (hnn : ∀ ly ∈ lys, ly ≠ []) (hlen : ∀ ly ∈ lys, ly.length = lx.length) :
    ∃ plotted ax,
      line (.numList (lx.map Val.num))
          (.arrList (lys.map fun ly => PyObj.numList (ly.map Val.num)))
          .noLabels none =
        .ok (plotted, ax) ∧
      plotted.length = GRAYSCALE_PALETTE.length ∧
      GRAYSCALE_PALETTE.length = 4 ∧
      plotted.length < lys.length := by
  cases lys with
  | nil => simp at hk
  | cons ly0 lt =>
    unfold line
    rw [validate_pure lx _ hlx]
    dsimp only [List.map_cons]
    rw [show List.enum (PyObj.numList (ly0.map Val.num)
          :: lt.map fun ly => PyObj.numList (ly.map Val.num)) =
        List.enumFrom 0 ((ly0 :: lt).map fun ly => PyObj.numList (ly.map Val.num))
      from by rw [List.map_cons]; rfl]
    rw [mapM_validate_pure (ly0 :: lt) 0 hnn]
    dsimp only
    rw [show ((ly0 :: lt).map fun ly => NpArray.floats (ly.map Val.num)).enum =
        List.enumFrom 0 ((ly0 :: lt).map fun ly => NpArray.floats (ly.map Val.num))
      from rfl]
    rw [show (fun p : ℕ × NpArray =>
          npSize p.2 != npSize (NpArray.floats (lx.map Val.num))) =
        (fun p : ℕ × NpArray => npSize p.2 != lx.length)
      from by funext p; simp [npSize]]
    rw [find?_size_none lx.length ((ly0 :: lt).map fun ly =>
        NpArray.floats (ly.map Val.num)) 0 ?hsz]
    case hsz =>
      intro a ha
      rcases List.mem_map.mp ha with ⟨ly, hly, rfl⟩
      simp [npSize, hlen ly hly]
    dsimp only
    refine ⟨_, _, rfl, ?_, rfl, ?_⟩
    · simp only [List.length_map, List.length_zip, List.length_take,
        List.length_append, List.length_replicate, List.length_cons]
      rw [show GRAYSCALE_PALETTE.length = 4 from rfl]
      simp only [List.length_cons] at hk
      omega
    · simp only [List.length_map, List.length_zip, List.length_take,
        List.length_append, List.length_replicate, List.length_cons]
      rw [show GRAYSCALE_PALETTE.length = 4 from rfl]
      simp only [List.length_cons] at hk
      omega

/-- Witness for C9: five singleton series against x = [0]; exactly four
lines are plotted. -/
theorem C9_line_truncates_to_palette_witness :
    ∃ plotted ax,
      line (.numList (([0] : List ℚ).map Val.num))
          (.arrList (([[1], [2], [3], [4], [5]] : List (List ℚ)).map
            fun ly => PyObj.numList (ly.map Val.num)))
          .noLabels none =
        .ok (plotted, ax) ∧
      plotted.length = GRAYSCALE_PALETTE.length ∧
      GRAYSCALE_PALETTE.length = 4 ∧
      plotted.length < ([[1], [2], [3], [4], [5]] : List (List ℚ)).length :=
  C9_line_truncates_to_palette [0] [[1], [2], [3], [4], [5]]
    (by simp) (by simp) (by simp) (by simp)

end Tufte
